import Mathlib

/-!
Shallow embedding of the module `src/nodes/uiblib.js` of
node-red-contrib-uibuilder, together with proofs about its
message-routing and teardown behaviour.

Modelling conventions:
  - JavaScript strings are `List Char`.
  - A JavaScript object (a message) is an ordered association list of
    key/value pairs with unique keys; `hasOwnProperty` is key membership,
    `delete` removes the entry, assignment updates in place or appends.
  - JavaScript values inspected by the module are modelled by `JVal`
    (null, booleans, strings, numbers) with JS truthiness.
  - External collaborators (the Socket.IO namespace, the Express router
    stack, the Node-RED runtime) are modelled as explicit data: emissions
    and node outputs are collected into result lists, the router stack is
    a list of rendered pattern strings, and calls that may throw are
    oracles returning `Except`.
-/

set_option autoImplicit false

namespace Uiblib

/-- Model of a JavaScript value, as far as this module inspects values:
null, booleans, strings and numbers. -/
inductive JVal where
  | vNull : JVal
  | vBool : Bool → JVal
  | vStr : List Char → JVal
  | vNum : Int → JVal
deriving DecidableEq

/-- JavaScript truthiness of a modelled value. -/
def JVal.truthy : JVal → Bool
  | .vNull => false
  | .vBool b => b
  | .vStr s => !s.isEmpty
  | .vNum n => n != 0

/-- A JavaScript object used as a message: an ordered association list. -/
abbrev Msg := List (List Char × JVal)

/-- Model of `msg.hasOwnProperty(k)`. -/
def hasOwn : Msg → List Char → Bool
  | [], _ => false
  | p :: rest, k => p.1 == k || hasOwn rest k

/-- Model of reading `msg[k]`: `none` is JavaScript `undefined`. -/
def getProp : Msg → List Char → Option JVal
  | [], _ => none
  | p :: rest, k => if p.1 == k then some p.2 else getProp rest k

/-- Model of `delete msg[k]`. -/
def delProp : Msg → List Char → Msg
  | [], _ => []
  | p :: rest, k => if p.1 == k then delProp rest k else p :: delProp rest k

/-- Model of the assignment `msg[k] = v`: update in place when the key
exists, append otherwise. -/
def setProp : Msg → List Char → JVal → Msg
  | [], k, v => [(k, v)]
  | p :: rest, k, v => if p.1 == k then (k, v) :: rest else p :: setProp rest k v

/-- Truthiness of a property read, where `undefined` is falsy. -/
def truthyOpt : Option JVal → Bool
  | none => false
  | some v => v.truthy

/-- The reserved control-marker key `uibuilderCtrl`. -/
def ctrlKey : List Char := "uibuilderCtrl".toList

/-- The key `script`. -/
def scriptKey : List Char := "script".toList

/-- The key `style`. -/
def styleKey : List Char := "style".toList

/-- The target-client identifier key `_socketId`. -/
def sidKey : List Char := "_socketId".toList

/-- The key `topic`. -/
def topicKey : List Char := "topic".toList

/-- The mutable node state read and written by the module: configuration
flags, channel names and the received-message counter. -/
structure Node where
  url : List Char
  topic : List Char
  allowScripts : Bool
  allowStyles : Bool
  fwdInMessages : Bool
  rcvMsgCount : Nat
  serverChannel : List Char
  controlChannel : List Char
deriving DecidableEq

/-- One wire emission on the Socket.IO namespace: either targeted at one
client (`ioNs.to(id).emit(channel, msg)`) or a namespace-wide broadcast
(`ioNs.emit(channel, msg)`). -/
inductive Emission where
  | toClient : JVal → List Char → Msg → Emission
  | broadcast : List Char → Msg → Emission
deriving DecidableEq

/-- One `node.send(...)` output: a single message or the two-slot form
`node.send([a, b])` where a slot may be null. -/
inductive NodeSend where
  | single : Msg → NodeSend
  | pair : Option Msg → Msg → NodeSend
deriving DecidableEq

/-- Model of the emission pattern
`if (msg._socketId) ioNs.to(msg._socketId).emit(ch, msg) else ioNs.emit(ch, msg)`
which appears both in `inputHandler` and in `sendControl`. -/
def emitTo (channel : List Char) (m : Msg) : Emission :=
  match getProp m sidKey with
  | some v => if v.truthy then Emission.toClient v channel m else Emission.broadcast channel m
  | none => Emission.broadcast channel m

/-- Everything `inputHandler` does: its return value, the updated node
state, the wire emissions and the downstream `node.send` outputs. -/
structure InputResult where
  ret : Option Msg
  node : Node
  emits : List Emission
  sends : List NodeSend
deriving DecidableEq

/-- Embedding of `inputHandler(msg, node, RED, io, ioNs, log)`:
increment the received counter; drop control messages; strip `script` /
`style` when not allowed; emit to one client or broadcast; optionally
forward downstream; return the (possibly mutated) message. -/
def inputHandler (msg : Msg) (node : Node) : InputResult :=
  let node1 : Node := { node with rcvMsgCount := node.rcvMsgCount + 1 }
  if hasOwn msg ctrlKey then
    ⟨none, node1, [], []⟩
  else
    let msg1 := if node.allowScripts != true then
        (if hasOwn msg scriptKey then delProp msg scriptKey else msg) else msg
    let msg2 := if node.allowStyles != true then
        (if hasOwn msg1 styleKey then delProp msg1 styleKey else msg1) else msg1
    let sends := if node.fwdInMessages then [NodeSend.single msg2] else []
    ⟨some msg2, node1, [emitTo node.serverChannel msg2], sends⟩

/-- Truthiness of the optional `socketId` string argument of `sendControl`. -/
def strTruthy : Option (List Char) → Bool
  | none => false
  | some s => !s.isEmpty

/-- Everything `sendControl` does: the final state of the (mutated)
message, the wire emissions and the `node.send` outputs. -/
structure ControlResult where
  outMsg : Msg
  emits : List Emission
  sends : List NodeSend
deriving DecidableEq

/-- Embedding of `sendControl(msg, ioNs, node, socketId)`: stamp a truthy
`socketId` argument onto the message; emit targeted or broadcast on the
control channel; stamp the node's default topic when the message has no
topic and the default is non-empty; output `[null, msg]` on port 2. -/
def sendControl (msg : Msg) (node : Node) (socketId : Option (List Char)) : ControlResult :=
  let msg1 := if strTruthy socketId then
      setProp msg sidKey (JVal.vStr (socketId.getD [])) else msg
  let e := emitTo node.controlChannel msg1
  let msg2 := if !(hasOwn msg1 topicKey) && !(node.topic.isEmpty) then
      setProp msg1 topicKey (JVal.vStr node.topic) else msg1
  ⟨msg2, [e], [NodeSend.pair none msg2]⟩

/-- The message carried by an emission. -/
def emitMsg : Emission → Msg
  | .toClient _ _ m => m
  | .broadcast _ m => m

theorem emitMsg_emitTo (channel : List Char) (m : Msg) : emitMsg (emitTo channel m) = m := by
  unfold emitTo
  cases getProp m sidKey with
  | none => rfl
  | some v =>
    by_cases h : v.truthy = true
    · simp [h, emitMsg]
    · simp [h, emitMsg]

theorem getProp_isSome_of_hasOwn (m : Msg) (k : List Char) :
    hasOwn m k = (getProp m k).isSome := by
  induction m with
  | nil => rfl
  | cons p rest ih =>
    by_cases h : p.1 = k
    · simp [hasOwn, getProp, h]
    · simp [hasOwn, getProp, h, ih]

theorem hasOwn_delProp_self (m : Msg) (k : List Char) : hasOwn (delProp m k) k = false := by
  induction m with
  | nil => rfl
  | cons p rest ih =>
    by_cases h : p.1 = k
    · simp [delProp, h, ih]
    · simp [delProp, hasOwn, h, ih]

theorem getProp_delProp_ne (m : Msg) (k k' : List Char) (h : k ≠ k') :
    getProp (delProp m k') k = getProp m k := by
  have hks : ¬ k' = k := fun hh => h hh.symm
  induction m with
  | nil => rfl
  | cons p rest ih =>
    by_cases hp : p.1 = k'
    · simp [delProp, getProp, hp, hks, ih]
    · by_cases hk : p.1 = k
      · simp [delProp, getProp, hp, hk, h]
      · simp [delProp, getProp, hp, hk, ih]

theorem hasOwn_delProp_ne (m : Msg) (k k' : List Char) (h : k ≠ k') :
    hasOwn (delProp m k') k = hasOwn m k := by
  rw [getProp_isSome_of_hasOwn, getProp_isSome_of_hasOwn, getProp_delProp_ne m k k' h]

theorem getProp_setProp_self (m : Msg) (k : List Char) (v : JVal) :
    getProp (setProp m k v) k = some v := by
  induction m with
  | nil => simp [setProp, getProp]
  | cons p rest ih =>
    by_cases h : p.1 = k
    · simp [setProp, getProp, h]
    · simp [setProp, getProp, h, ih]

theorem getProp_setProp_ne (m : Msg) (k k' : List Char) (v : JVal) (h : k ≠ k') :
    getProp (setProp m k' v) k = getProp m k := by
  have hks : ¬ k' = k := fun hh => h hh.symm
  induction m with
  | nil => simp [setProp, getProp, hks]
  | cons p rest ih =>
    by_cases hp : p.1 = k'
    · simp [setProp, getProp, hp, hks]
    · by_cases hk : p.1 = k
      · simp [setProp, getProp, hp, hk, h]
      · simp [setProp, getProp, hp, hk, ih]

theorem hasOwn_setProp_ne (m : Msg) (k k' : List Char) (v : JVal) (h : k ≠ k') :
    hasOwn (setProp m k' v) k = hasOwn m k := by
  rw [getProp_isSome_of_hasOwn, getProp_isSome_of_hasOwn, getProp_setProp_ne m k k' v h]

/-- C3: for every endpoint and every inbound message carrying the control
marker key `uibuilderCtrl`, `inputHandler` returns null, increments the
endpoint's received-message counter by exactly one, performs no transport
emission and no downstream flow output. -/
theorem inputHandler_drops_control (msg : Msg) (node : Node)
    (h : hasOwn msg ctrlKey = true) :
    (inputHandler msg node).ret = none ∧
    (inputHandler msg node).node.rcvMsgCount = node.rcvMsgCount + 1 ∧
    (inputHandler msg node).emits = [] ∧
    (inputHandler msg node).sends = [] := by
  simp [inputHandler, h]

/-- A concrete endpoint configuration used by witnesses. -/
def nodeW : Node :=
  { url := "a".toList, topic := [], allowScripts := false, allowStyles := false,
    fwdInMessages := false, rcvMsgCount := 0,
    serverChannel := "uiBuilder".toList, controlChannel := "uiBuilderControl".toList }

/-- A concrete control message used by the C3 witness. -/
def ctrlMsgW : Msg := [(ctrlKey, JVal.vStr ("shutdown".toList))]

/-- Witness for C3 at a concrete control message and endpoint. -/
theorem inputHandler_drops_control_witness :
    hasOwn ctrlMsgW ctrlKey = true ∧
    ((inputHandler ctrlMsgW nodeW).ret = none ∧
     (inputHandler ctrlMsgW nodeW).node.rcvMsgCount = nodeW.rcvMsgCount + 1 ∧
     (inputHandler ctrlMsgW nodeW).emits = [] ∧
     (inputHandler ctrlMsgW nodeW).sends = []) :=
  ⟨by decide, inputHandler_drops_control ctrlMsgW nodeW (by decide)⟩

/-- C7: for every endpoint with `allowScripts = false` and every inbound
data message (no control marker), the `script` key is absent from both the
returned message and the transport-emitted message; likewise for `style`
when `allowStyles = false`. -/
theorem inputHandler_sanitizes_script_style (msg : Msg) (node : Node)
    (hd : hasOwn msg ctrlKey = false) :
    (node.allowScripts = false →
      (∀ m, (inputHandler msg node).ret = some m → hasOwn m scriptKey = false) ∧
      (∀ e ∈ (inputHandler msg node).emits, hasOwn (emitMsg e) scriptKey = false)) ∧
    (node.allowStyles = false →
      (∀ m, (inputHandler msg node).ret = some m → hasOwn m styleKey = false) ∧
      (∀ e ∈ (inputHandler msg node).emits, hasOwn (emitMsg e) styleKey = false)) := by
  have hks : scriptKey ≠ styleKey := by decide
  simp only [inputHandler, hd, Bool.false_eq_true, if_false]
  constructor
  · intro hs
    have h2 : ∀ m1 : Msg, hasOwn m1 scriptKey = false →
        hasOwn (if node.allowStyles != true then
          (if hasOwn m1 styleKey then delProp m1 styleKey else m1) else m1) scriptKey = false := by
      intro m1 h1
      by_cases hA : (node.allowStyles != true) = true
      · by_cases hS : hasOwn m1 styleKey = true
        · simpa [hA, hS, hasOwn_delProp_ne m1 scriptKey styleKey hks] using h1
        · simp only [Bool.not_eq_true] at hS
          simpa [hA, hS] using h1
      · simp only [Bool.not_eq_true] at hA
        simpa [hA] using h1
    have h1 : hasOwn (if node.allowScripts != true then
        (if hasOwn msg scriptKey then delProp msg scriptKey else msg) else msg) scriptKey = false := by
      by_cases hS : hasOwn msg scriptKey = true
      · simp [hs, hS, hasOwn_delProp_self]
      · simp only [Bool.not_eq_true] at hS
        simp [hs, hS]
    refine ⟨?_, ?_⟩
    · intro m hm
      simp only [Option.some.injEq] at hm
      exact hm ▸ h2 _ h1
    · intro e he
      simp only [List.mem_singleton] at he
      subst he
      rw [emitMsg_emitTo]
      exact h2 _ h1
  · intro hs
    have h1 : hasOwn (if node.allowStyles != true then
        (if hasOwn ((if node.allowScripts != true then
            (if hasOwn msg scriptKey then delProp msg scriptKey else msg) else msg)) styleKey then
          delProp ((if node.allowScripts != true then
            (if hasOwn msg scriptKey then delProp msg scriptKey else msg) else msg)) styleKey
         else ((if node.allowScripts != true then
            (if hasOwn msg scriptKey then delProp msg scriptKey else msg) else msg))) else
        ((if node.allowScripts != true then
            (if hasOwn msg scriptKey then delProp msg scriptKey else msg) else msg))) styleKey
        = false := by
      set m1 := (if node.allowScripts != true then
          (if hasOwn msg scriptKey then delProp msg scriptKey else msg) else msg) with hm1
      by_cases hS : hasOwn m1 styleKey = true
      · simp [hs, hS, hasOwn_delProp_self]
      · simp only [Bool.not_eq_true] at hS
        simp [hs, hS]
    refine ⟨?_, ?_⟩
    · intro m hm
      simp only [Option.some.injEq] at hm
      exact hm ▸ h1
    · intro e he
      simp only [List.mem_singleton] at he
      subst he
      rw [emitMsg_emitTo]
      exact h1

/-- A concrete data message carrying both a script and a style key, used
by the C7 witness. -/
def scriptMsgW : Msg :=
  [(scriptKey, JVal.vStr ("x".toList)), (styleKey, JVal.vStr ("y".toList)),
   (topicKey, JVal.vStr ("t".toList))]

/-- Witness for C7 at a concrete message with script and style keys. -/
theorem inputHandler_sanitizes_script_style_witness :
    hasOwn scriptMsgW ctrlKey = false ∧
    (nodeW.allowScripts = false →
      (∀ m, (inputHandler scriptMsgW nodeW).ret = some m → hasOwn m scriptKey = false) ∧
      (∀ e ∈ (inputHandler scriptMsgW nodeW).emits, hasOwn (emitMsg e) scriptKey = false)) ∧
    (nodeW.allowStyles = false →
      (∀ m, (inputHandler scriptMsgW nodeW).ret = some m → hasOwn m styleKey = false) ∧
      (∀ e ∈ (inputHandler scriptMsgW nodeW).emits, hasOwn (emitMsg e) styleKey = false)) :=
  ⟨by decide, inputHandler_sanitizes_script_style scriptMsgW nodeW (by decide)⟩

/-- C5: every call to `sendControl` produces exactly one node output, the
two-slot pair `[null, msg]`; the endpoint's default topic is stamped onto
the message exactly when the message lacked a topic key and the default
topic is non-empty. -/
theorem sendControl_output_pair_and_topic (msg : Msg) (node : Node)
    (socketId : Option (List Char)) :
    (sendControl msg node socketId).sends
        = [NodeSend.pair none (sendControl msg node socketId).outMsg] ∧
    (hasOwn msg topicKey = false ∧ node.topic ≠ [] →
        getProp (sendControl msg node socketId).outMsg topicKey = some (JVal.vStr node.topic)) ∧
    (hasOwn msg topicKey = true ∨ node.topic = [] →
        getProp (sendControl msg node socketId).outMsg topicKey = getProp msg topicKey) := by
  have hkt : topicKey ≠ sidKey := by decide
  unfold sendControl
  set msg1 := (if strTruthy socketId then
      setProp msg sidKey (JVal.vStr (socketId.getD [])) else msg) with hmsg1
  have hHas : hasOwn msg1 topicKey = hasOwn msg topicKey := by
    rw [hmsg1]
    by_cases hs : strTruthy socketId = true
    · simp [hs, hasOwn_setProp_ne msg topicKey sidKey _ hkt]
    · simp [hs]
  have hGet : getProp msg1 topicKey = getProp msg topicKey := by
    rw [hmsg1]
    by_cases hs : strTruthy socketId = true
    · simp [hs, getProp_setProp_ne msg topicKey sidKey _ hkt]
    · simp [hs]
  refine ⟨rfl, ?_, ?_⟩
  · rintro ⟨h1, h2⟩
    have h2' : node.topic.isEmpty = false := by
      cases ht : node.topic with
      | nil => exact absurd ht h2
      | cons a t => rfl
    simp only [hHas, h1, h2', Bool.not_false, Bool.and_self, if_true]
    exact getProp_setProp_self msg1 topicKey (JVal.vStr node.topic)
  · intro h
    cases h with
    | inl h1 => simp [hHas, h1, hGet]
    | inr h2 => simp [h2, hGet]

/-- An endpoint with a non-empty default topic, used by the C5 witness. -/
def nodeT : Node := { nodeW with topic := "t".toList }

/-- Witness for C5: an empty message sent through `sendControl` on an
endpoint whose default topic is "t" gets the topic stamped, and the single
node output is the two-slot pair. -/
theorem sendControl_output_pair_and_topic_witness :
    (sendControl [] nodeT none).sends
        = [NodeSend.pair none (sendControl [] nodeT none).outMsg] ∧
    getProp (sendControl [] nodeT none).outMsg topicKey = some (JVal.vStr ("t".toList)) :=
  ⟨(sendControl_output_pair_and_topic [] nodeT none).1,
   (sendControl_output_pair_and_topic [] nodeT none).2.1 ⟨by decide, by decide⟩⟩

theorem getProp_sid_sanitized (msg : Msg) (node : Node) :
    getProp (if node.allowStyles != true then
        (if hasOwn (if node.allowScripts != true then
            (if hasOwn msg scriptKey then delProp msg scriptKey else msg) else msg) styleKey then
          delProp (if node.allowScripts != true then
            (if hasOwn msg scriptKey then delProp msg scriptKey else msg) else msg) styleKey
        else (if node.allowScripts != true then
            (if hasOwn msg scriptKey then delProp msg scriptKey else msg) else msg))
      else (if node.allowScripts != true then
            (if hasOwn msg scriptKey then delProp msg scriptKey else msg) else msg)) sidKey
      = getProp msg sidKey := by
  have hs : sidKey ≠ scriptKey := by decide
  have ht : sidKey ≠ styleKey := by decide
  set m1 := (if node.allowScripts != true then
      (if hasOwn msg scriptKey then delProp msg scriptKey else msg) else msg) with hm1
  have h1 : getProp m1 sidKey = getProp msg sidKey := by
    rw [hm1]
    by_cases hA : (node.allowScripts != true) = true
    · by_cases hS : hasOwn msg scriptKey = true
      · simp [hA, hS, getProp_delProp_ne msg sidKey scriptKey hs]
      · simp only [Bool.not_eq_true] at hS
        simp [hA, hS]
    · simp only [Bool.not_eq_true] at hA
      simp [hA]
  by_cases hA : (node.allowStyles != true) = true
  · by_cases hS : hasOwn m1 styleKey = true
    · simp [hA, hS, getProp_delProp_ne m1 sidKey styleKey ht, h1]
    · simp only [Bool.not_eq_true] at hS
      simp [hA, hS, h1]
  · simp only [Bool.not_eq_true] at hA
    simp [hA, h1]

/-- C8 (amended): for every inbound data message, delivery is targeted to
the message's `_socketId` exactly when that value is truthy; a message
whose `_socketId` is absent or falsy is broadcast to the namespace. -/
theorem inputHandler_target_iff_truthy (msg : Msg) (node : Node)
    (hd : hasOwn msg ctrlKey = false) :
    (∀ v, getProp msg sidKey = some v → v.truthy = true →
      ∃ m, (inputHandler msg node).emits = [Emission.toClient v node.serverChannel m]) ∧
    (truthyOpt (getProp msg sidKey) = false →
      ∃ m, (inputHandler msg node).emits = [Emission.broadcast node.serverChannel m]) := by
  simp only [inputHandler, hd, Bool.false_eq_true, if_false]
  constructor
  · intro v hv htr
    simp only [emitTo, getProp_sid_sanitized msg node, hv, htr, if_true]
    exact ⟨_, rfl⟩
  · intro hf
    simp only [emitTo, getProp_sid_sanitized msg node]
    cases hg : getProp msg sidKey with
    | none => exact ⟨_, rfl⟩
    | some v =>
      rw [hg] at hf
      simp only [truthyOpt] at hf
      simp only [hf, Bool.false_eq_true, if_false]
      exact ⟨_, rfl⟩

/-- A concrete data message with a truthy `_socketId`, for the C8 witness. -/
def sidMsgW : Msg := [(sidKey, JVal.vStr ("s1".toList))]

/-- Witness for C8 (amended) at a message with `_socketId = "s1"`. -/
theorem inputHandler_target_iff_truthy_witness :
    ∃ m, (inputHandler sidMsgW nodeW).emits
        = [Emission.toClient (JVal.vStr ("s1".toList)) nodeW.serverChannel m] :=
  (inputHandler_target_iff_truthy sidMsgW nodeW (by decide)).1
    (JVal.vStr ("s1".toList)) (by decide) (by decide)

/-- A data message that carries the `_socketId` key with a falsy (empty
string) value, for the C8 counterexample. -/
def emptySidMsgW : Msg := [(sidKey, JVal.vStr [])]

/-- Counterexample for C8 as stated: this data message carries the
target-client identifier key, yet `inputHandler` performs a namespace-wide
broadcast (the value is the empty string, which is falsy in JavaScript). -/
theorem inputHandler_falsy_sid_broadcasts :
    hasOwn emptySidMsgW sidKey = true ∧
    (inputHandler emptySidMsgW nodeW).emits
        = [Emission.broadcast nodeW.serverChannel emptySidMsgW] := by decide

/-- C10 (amended): with a falsy/absent `socketId` argument, the control
emission is targeted to the message's `_socketId` client exactly when that
value is truthy; with a truthy `socketId` argument the emission is always
targeted; a broadcast happens exactly when both are falsy or absent. -/
theorem sendControl_target_iff_truthy (msg : Msg) (node : Node)
    (socketId : Option (List Char)) :
    (strTruthy socketId = false →
      (∀ v, getProp msg sidKey = some v → v.truthy = true →
        (sendControl msg node socketId).emits
            = [Emission.toClient v node.controlChannel msg]) ∧
      (truthyOpt (getProp msg sidKey) = false →
        (sendControl msg node socketId).emits
            = [Emission.broadcast node.controlChannel msg])) ∧
    (strTruthy socketId = true →
      ∃ v m, (sendControl msg node socketId).emits
          = [Emission.toClient v node.controlChannel m]) := by
  constructor
  · intro hs
    constructor
    · intro v hv htr
      simp only [sendControl, hs, Bool.false_eq_true, if_false, emitTo, hv, htr, if_true]
    · intro hf
      simp only [sendControl, hs, Bool.false_eq_true, if_false, emitTo]
      cases hg : getProp msg sidKey with
      | none => rfl
      | some v =>
        rw [hg] at hf
        simp only [truthyOpt] at hf
        simp [hf]
  · intro hs
    cases socketId with
    | none => exact absurd hs (by simp [strTruthy])
    | some s =>
      have hne : s.isEmpty = false := by
        simp only [strTruthy, Bool.not_eq_true'] at hs
        exact hs
      have htr : (JVal.vStr s).truthy = true := by
        simp [JVal.truthy, hne]
      refine ⟨JVal.vStr s, setProp msg sidKey (JVal.vStr s), ?_⟩
      simp only [sendControl, hs, if_true, Option.getD, emitTo,
        getProp_setProp_self msg sidKey (JVal.vStr s), htr]

/-- A control message with a truthy `_socketId` key, for the C10 witness. -/
def sidCtlMsgW : Msg := [(sidKey, JVal.vStr ("s2".toList))]

/-- Witness for C10 (amended): with no `socketId` argument, a control
message carrying a truthy `_socketId` is sent targeted, not broadcast. -/
theorem sendControl_target_iff_truthy_witness :
    (sendControl sidCtlMsgW nodeW none).emits
        = [Emission.toClient (JVal.vStr ("s2".toList)) nodeW.controlChannel sidCtlMsgW] :=
  ((sendControl_target_iff_truthy sidCtlMsgW nodeW none).1 (by decide)).1
    (JVal.vStr ("s2".toList)) (by decide) (by decide)

/-- A control message that carries the `_socketId` key with a falsy (empty
string) value, for the C10 counterexample. -/
def emptySidCtlMsgW : Msg := [(sidKey, JVal.vStr [])]

/-- Counterexample for C10 as stated: the `socketId` argument is absent and
the passed message does contain the `_socketId` key, yet `sendControl`
broadcasts (the value is the empty string, which is falsy in JavaScript). -/
theorem sendControl_falsy_sid_broadcasts :
    hasOwn emptySidCtlMsgW sidKey = true ∧
    (sendControl emptySidCtlMsgW nodeW none).emits
        = [Emission.broadcast nodeW.controlChannel emptySidCtlMsgW] := by decide

/-- Model of `RED.util.getMessageProperty`, an external runtime utility
supplied to `getProps` as an oracle: a nested-path lookup that either
throws (`Except.error`, when an intermediate property is missing), returns
`undefined` (`Except.ok none`) or returns a defined value. -/
abbrev PropLookup := List Char → Except Unit (Option JVal)

/-- The `props` argument of `getProps`: a string, an array, or any other
value. -/
inductive PropsArg where
  | str : List Char → PropsArg
  | arr : List (List Char) → PropsArg
  | other : PropsArg

/-- The search loop of `getProps`: try each path; a thrown lookup is
swallowed and the previous `ans` kept; a defined value stops the loop. -/
def getPropsLoop (f : PropLookup) : List (List Char) → Option JVal → Option JVal
  | [], ans => ans
  | p :: rest, ans =>
    match f p with
    | .error _ => getPropsLoop f rest ans
    | .ok a => if a.isSome then a else getPropsLoop f rest a

/-- Model of the final `ans || defaultAnswer`: the found value when it is
truthy, the default otherwise. -/
def orDefault (ans : Option JVal) (d : JVal) : JVal :=
  match ans with
  | some v => if v.truthy then v else d
  | none => d

/-- Embedding of `getProps(RED, myObj, props, defaultAnswer)`; the result
`none` models the JavaScript `undefined` returned for a non-string,
non-array `props` argument. -/
def getProps (f : PropLookup) (props : PropsArg) (defaultAnswer : JVal) : Option JVal :=
  match props with
  | .str p => some (orDefault (getPropsLoop f [p] none) defaultAnswer)
  | .arr ps => some (orDefault (getPropsLoop f ps none) defaultAnswer)
  | .other => none

/-- Modelled from the spec: the value at the first path in the list whose
lookup yields a defined value, `none` when no path does. -/
def specFirstDefined (f : PropLookup) : List (List Char) → Option JVal
  | [] => none
  | p :: rest =>
    match f p with
    | .error _ => specFirstDefined f rest
    | .ok none => specFirstDefined f rest
    | .ok (some v) => some v

theorem getPropsLoop_eq_specFirstDefined (f : PropLookup) (ps : List (List Char)) :
    getPropsLoop f ps none = specFirstDefined f ps := by
  induction ps with
  | nil => rfl
  | cons p rest ih =>
    simp only [getPropsLoop, specFirstDefined]
    cases f p with
    | error e => exact ih
    | ok a =>
      cases a with
      | none => simpa using ih
      | some v => rfl

/-- C4 (amended): `getProps` never raises (it is total, lookup errors are
swallowed); it returns the first defined value among the paths when that
value is truthy; when the first defined value is falsy, or when no path
yields a defined value, it returns the caller-supplied default. -/
theorem getProps_first_truthy_or_default (f : PropLookup) (ps : List (List Char)) (d : JVal) :
    getProps f (PropsArg.arr ps) d = some (orDefault (specFirstDefined f ps) d) ∧
    (∀ v, specFirstDefined f ps = some v → v.truthy = true →
        getProps f (PropsArg.arr ps) d = some v) ∧
    (specFirstDefined f ps = none → getProps f (PropsArg.arr ps) d = some d) := by
  have h : getProps f (PropsArg.arr ps) d = some (orDefault (specFirstDefined f ps) d) := by
    simp [getProps, getPropsLoop_eq_specFirstDefined]
  refine ⟨h, ?_, ?_⟩
  · intro v hv htr
    rw [h, hv]
    simp [orDefault, htr]
  · intro hv
    rw [h, hv]
    rfl

/-- A lookup oracle for an object whose property `a` holds the number 0:
looking up path `a` yields the defined (but JS-falsy) value 0, every other
path is undefined. -/
def cexLookup : PropLookup := fun p =>
  if p = "a".toList then Except.ok (some (JVal.vNum 0)) else Except.ok none

/-- Counterexample for C4 as stated: the first path `a` yields the defined
value 0, yet `getProps` returns the default 42, because the source returns
`ans || defaultAnswer` and 0 is falsy. -/
theorem getProps_falsy_found_returns_default :
    cexLookup ("a".toList) = Except.ok (some (JVal.vNum 0)) ∧
    getProps cexLookup (PropsArg.arr ["a".toList]) (JVal.vNum 42) = some (JVal.vNum 42) ∧
    JVal.vNum 42 ≠ JVal.vNum 0 := by
  refine ⟨rfl, rfl, by decide⟩

/-- Witness for C4 (amended) at the same concrete oracle: the first
defined value is 0 (falsy), so the default is returned. -/
theorem getProps_first_truthy_or_default_witness :
    getProps cexLookup (PropsArg.arr ["a".toList]) (JVal.vNum 42)
        = some (orDefault (specFirstDefined cexLookup ["a".toList]) (JVal.vNum 42)) :=
  (getProps_first_truthy_or_default cexLookup (["a".toList]) (JVal.vNum 42)).1

/-- The regex metacharacters escaped by `escapeRegExp`, the character
class of the source (braces written by code point). -/
def metaChars : List Char :=
  ['.', '*', '+', '?', '^', '$', Char.ofNat 123, Char.ofNat 125,
   '(', ')', '|', '[', ']', '\\']

/-- Embedding of `escapeRegExp(string)`: the global replace that puts a
backslash before every regex metacharacter. -/
def escapeRegExp : List Char → List Char
  | [] => []
  | c :: rest => (if metaChars.contains c then ['\\', c] else [c]) ++ escapeRegExp rest

/-- JavaScript line terminators: the characters the regex `.` does not
match. -/
def lineTerm (c : Char) : Bool :=
  c = '\n' || c = '\r' || c = Char.ofNat 0x2028 || c = Char.ofNat 0x2029

/-- A small regular-expression AST covering the shapes this module builds:
the empty string, a single literal character, the JS dot (any character
except a line terminator), concatenation and Kleene star. The anchors
`^`/`$` of the source patterns are modelled by whole-string matching. -/
inductive RE where
  | eps : RE
  | lit : Char → RE
  | dotAny : RE
  | cat : RE → RE → RE
  | star : RE → RE

/-- Whole-string matching of the regex AST. -/
inductive RMatch : RE → List Char → Prop where
  | eps : RMatch .eps []
  | lit (c : Char) : RMatch (.lit c) [c]
  | dot (c : Char) : lineTerm c = false → RMatch .dotAny [c]
  | cat {a b : RE} (s t : List Char) : RMatch a s → RMatch b t → RMatch (.cat a b) (s ++ t)
  | starNil {a : RE} : RMatch (.star a) []
  | starCat {a : RE} (s t : List Char) :
      RMatch a s → RMatch (.star a) t → RMatch (.star a) (s ++ t)

/-- The regex that matches exactly one given literal string. -/
def compileLit : List Char → RE
  | [] => .eps
  | c :: rest => .cat (.lit c) (compileLit rest)

theorem rmatch_eps_iff (t : List Char) : RMatch .eps t ↔ t = [] := by
  constructor
  · intro h
    cases h
    rfl
  · intro h
    subst h
    exact .eps

theorem rmatch_lit_iff (c : Char) (t : List Char) : RMatch (.lit c) t ↔ t = [c] := by
  constructor
  · intro h
    cases h
    rfl
  · intro h
    subst h
    exact .lit c

theorem rmatch_cat_iff (a b : RE) (u : List Char) :
    RMatch (.cat a b) u ↔ ∃ s t, u = s ++ t ∧ RMatch a s ∧ RMatch b t := by
  constructor
  · intro h
    cases h with
    | cat s t hs ht => exact ⟨s, t, rfl, hs, ht⟩
  · rintro ⟨s, t, rfl, hs, ht⟩
    exact .cat s t hs ht

theorem rmatch_compileLit (l t : List Char) : RMatch (compileLit l) t ↔ t = l := by
  induction l generalizing t with
  | nil => simpa [compileLit] using rmatch_eps_iff t
  | cons c rest ih =>
    simp only [compileLit, rmatch_cat_iff]
    constructor
    · rintro ⟨s, t', rfl, hs, ht⟩
      rw [(rmatch_lit_iff c s).mp hs, (ih t').mp ht]
      rfl
    · intro h
      subst h
      exact ⟨[c], rest, rfl, .lit c, (ih rest).mpr rfl⟩

/-- Read a pattern string that is a plain sequence of literal atoms: each
metacharacter must appear escaped, an escaped metacharacter denotes
itself. Returns the denoted literal string, or `none` when the pattern is
not such a sequence. -/
def lexEscaped : List Char → Option (List Char)
  | [] => some []
  | c :: rest =>
    if c = '\\' then
      match rest with
      | [] => none
      | d :: rest2 =>
        if metaChars.contains d then (lexEscaped rest2).map (fun l => d :: l) else none
    else if metaChars.contains c then none
    else (lexEscaped rest).map (fun l => c :: l)

theorem lexEscaped_escapeRegExp (s : List Char) :
    lexEscaped (escapeRegExp s) = some s := by
  induction s with
  | nil => rfl
  | cons c rest ih =>
    by_cases h : c ∈ metaChars
    · simp [escapeRegExp, lexEscaped, h, ih]
    · have hb : ¬ c = '\\' := by
        intro hc
        subst hc
        exact h (by decide)
      have he : escapeRegExp (c :: rest) = c :: escapeRegExp rest := by
        simp [escapeRegExp, h]
      rw [he, lexEscaped.eq_def]
      simp [hb, h, ih]

/-- The pattern string `p`, anchored at start and end, matches the string
`t`: `p` parses as a sequence of literal atoms whose regex matches `t`
whole. -/
def litReMatches (p t : List Char) : Prop :=
  ∃ r, (lexEscaped p).map compileLit = some r ∧ RMatch r t

/-- C9: for every string `s`, the regular expression built from
`escapeRegExp(s)`, anchored at start and end, matches exactly the string
`s` itself — every metacharacter of `s` is treated as a literal atom after
escaping. -/
theorem escapeRegExp_anchored_matches_exactly (s t : List Char) :
    litReMatches (escapeRegExp s) t ↔ t = s := by
  unfold litReMatches
  rw [lexEscaped_escapeRegExp s]
  constructor
  · rintro ⟨r, hr, hm⟩
    have hc : compileLit s = r := by
      simpa using hr
    subst hc
    exact (rmatch_compileLit s t).mp hm
  · intro h
    exact ⟨compileLit s, rfl, (rmatch_compileLit s t).mpr h⟩

/-- Witness for C9 at the concrete metacharacter-laden string `a.b*`:
its escaped pattern matches it, and does not match the string `axb*`
that the unescaped pattern would also have matched. -/
theorem escapeRegExp_anchored_matches_exactly_witness :
    litReMatches (escapeRegExp ("a.b*".toList)) ("a.b*".toList) ∧
    ¬ litReMatches (escapeRegExp ("a.b*".toList)) ("axb*".toList) :=
  ⟨(escapeRegExp_anchored_matches_exactly ("a.b*".toList) ("a.b*".toList)).mpr rfl,
   fun h => by
    have := (escapeRegExp_anchored_matches_exactly ("a.b*".toList) ("axb*".toList)).mp h
    exact absurd this (by decide)⟩

/-- Model of `str.replace(/^\/|\/$/g, '')` inside `urlJoin`: drop one
leading and one trailing slash. -/
def dropEdgeSlashes (s : List Char) : List Char :=
  let s1 := match s with
    | '/' :: rest => rest
    | other => other
  if s1.getLast? = some '/' then s1.dropLast else s1

/-- Embedding of `urlJoin(url)` for a single argument: a leading slash
followed by the edge-trimmed fragment (empty fragments are filtered out). -/
def urlJoin1 (u : List Char) : List Char :=
  let e := dropEdgeSlashes u
  if e.isEmpty then ['/'] else '/' :: e

/-- The literal string the teardown escapes: `'/^\\' + urlJoin(node.url)`,
that is, the leading characters of an Express layer's rendered
`regexp.toString()` for that mount path. -/
def closeLit (url : List Char) : List Char :=
  '/' :: '^' :: '\\' :: urlJoin1 url

/-- The regex AST of the teardown's pattern source
`'^' + escapeRegExp(closeLit url) + '.*$'`: the escaped part denotes the
literal `closeLit url` (see `lexEscaped_escapeRegExp`), `.*` is
`star dotAny`, and the anchors are whole-string matching. -/
def closeRe (url : List Char) : RE :=
  .cat (compileLit (closeLit url)) (.star .dotAny)

/-- Executable matching of the teardown regex against a rendered pattern
string: the literal part is a prefix and the remainder has no line
terminator. `urlReMatches_iff_rmatch` proves this agrees with the regex
semantics of `closeRe`. -/
def urlReMatches (url s : List Char) : Bool :=
  (closeLit url).isPrefixOf s &&
    (s.drop (closeLit url).length).all (fun c => !(lineTerm c))

theorem rmatch_star_dot_elim {t : List Char} (h : RMatch (.star .dotAny) t) :
    ∀ c ∈ t, lineTerm c = false := by
  generalize hr : RE.star RE.dotAny = r at h
  induction h with
  | eps => simp at hr
  | lit c => simp at hr
  | dot c hc => simp at hr
  | cat s t hs ht ihs iht => simp at hr
  | starNil =>
    intro c hc
    simp at hc
  | starCat s t hs ht ihs iht =>
    injection hr with ha
    subst ha
    intro c hc
    rcases List.mem_append.mp hc with h1 | h2
    · cases hs with
      | dot c' hlt =>
        rw [List.mem_singleton.mp h1]
        exact hlt
    · exact iht rfl c h2

theorem rmatch_star_dot (t : List Char) :
    RMatch (.star .dotAny) t ↔ ∀ c ∈ t, lineTerm c = false := by
  constructor
  · exact rmatch_star_dot_elim
  · intro h
    induction t with
    | nil => exact .starNil
    | cons c rest ih =>
      have hrest : RMatch (.star .dotAny) rest :=
        ih (fun c' hc' => h c' (List.mem_cons_of_mem c hc'))
      have hc : lineTerm c = false := h c (List.mem_cons_self c rest)
      exact RMatch.starCat [c] rest (.dot c hc) hrest

theorem urlReMatches_iff_rmatch (url s : List Char) :
    urlReMatches url s = true ↔ RMatch (closeRe url) s := by
  unfold urlReMatches closeRe
  rw [Bool.and_eq_true, rmatch_cat_iff]
  constructor
  · rintro ⟨hp, ha⟩
    obtain ⟨t, ht⟩ := List.isPrefixOf_iff_prefix.mp hp
    refine ⟨closeLit url, t, ht.symm, (rmatch_compileLit _ _).mpr rfl, ?_⟩
    rw [rmatch_star_dot]
    intro c hc
    have hdrop : s.drop (closeLit url).length = t := by
      rw [← ht]
      exact List.drop_left (closeLit url) t
    have := List.all_eq_true.mp (hdrop ▸ ha) c hc
    simpa using this
  · rintro ⟨s1, t, rfl, h1, h2⟩
    have hs1 : s1 = closeLit url := (rmatch_compileLit _ _).mp h1
    subst hs1
    constructor
    · exact List.isPrefixOf_iff_prefix.mpr ⟨t, rfl⟩
    · rw [List.drop_left]
      exact List.all_eq_true.mpr (fun c hc => by
        simpa using (rmatch_star_dot t).mp h2 c hc)

/-- Model of `r.regexp.toString().replace(urlRe, '')`: the regex is
anchored at both ends, so a match replaces the whole string. -/
def replaceUrlRe (url s : List Char) : List Char :=
  if urlReMatches url s then [] else s

/-- The `forEach` pass of the teardown: collect (in ascending order) the
indices of the stack entries whose replaced pattern string is empty. -/
def removeIdxs (stack : List (List Char)) (url : List Char) : List Nat :=
  (List.range stack.length).filter
    (fun i => (replaceUrlRe url (stack.getD i [])).isEmpty)

/-- The reverse-order splice loop of the teardown. -/
def spliceDesc (stack : List (List Char)) (idxs : List Nat) : List (List Char) :=
  idxs.reverse.foldl (fun st i => st.eraseIdx i) stack

/-- The route-pruning step of `processClose`: collect matching indices,
then splice them out in descending order. -/
def pruneStack (stack : List (List Char)) (url : List Char) : List (List Char) :=
  spliceDesc stack (removeIdxs stack url)

/-- The Express-rendered pattern string (`layer.regexp.toString()`) of a
route mounted at `/a` with non-strict prefix semantics. -/
def patA : List Char := "/^\\/a\\/?(?=\\/|$)/i".toList

/-- The rendered pattern string of a route mounted at `/a/b`. -/
def patAB : List Char := "/^\\/a\\/b\\/?(?=\\/|$)/i".toList

/-- The rendered pattern string of a route mounted at `/c`. -/
def patC : List Char := "/^\\/c\\/?(?=\\/|$)/i".toList

/-- A router stack holding routes for `/a`, `/a/b` and `/c`. -/
def exStack : List (List Char) := [patA, patAB, patC]

/-- C1 code_bug evidence: tearing down the endpoint with url `a` on a
stack holding routes for `/a`, `/a/b` and `/c` removes BOTH the `/a`
entry and the `/a/b` entry (the teardown regex is an unbounded prefix
match, so the rendered pattern of every deeper path under `/a` matches
too); the claim requires the `/a/b` entry to survive. -/
theorem prune_removes_deeper_sibling :
    pruneStack exStack ("a".toList) = [patC] ∧
    patAB ∉ pruneStack exStack ("a".toList) := by decide

/-- The external collaborators `processClose` calls, as oracles: each call
either succeeds with a value or throws (`Except.error`). -/
structure CloseEnv where
  connected : Except Unit (List (List Char))
  disconnect : List Char → Except Unit Unit
  removeAllListeners : Except Unit Unit
  removeNamespace : Except Unit Unit
  routerStack : Except Unit (List (List Char))

/-- One observable step of the teardown. -/
inductive CloseEvent where
  | statusSet : CloseEvent
  | ctrlSend : ControlResult → CloseEvent
  | disconnected : List Char → CloseEvent
  | listenersRemoved : CloseEvent
  | namespaceRemoved : CloseEvent
  | routesPruned : List (List Char) → CloseEvent
  | doneCalled : CloseEvent
deriving DecidableEq

/-- The outcome of a teardown call: the ordered trace of steps performed,
and whether an exception escaped to the caller. -/
structure CloseResult where
  trace : List CloseEvent
  threw : Bool
deriving DecidableEq

/-- The shutdown notification `{uibuilderCtrl:'shutdown', from:'server'}`. -/
def shutdownMsg : Msg :=
  [(ctrlKey, JVal.vStr ("shutdown".toList)), (("from").toList, JVal.vStr ("server".toList))]

/-- The `forEach` disconnect loop: disconnect each enumerated socket in
order; an exception stops the loop (sockets disconnected so far stay
disconnected) and propagates. -/
def disconnectAll (env : CloseEnv) : List (List Char) → List CloseEvent × Bool
  | [] => ([], false)
  | sid :: rest =>
    match env.disconnect sid with
    | .error _ => ([], true)
    | .ok _ =>
      let r := disconnectAll env rest
      (CloseEvent.disconnected sid :: r.1, r.2)

/-- Embedding of `processClose(done, node, RED, ioNs, io, app, log)`:
set the CLOSED status, notify clients via `sendControl`, disconnect every
connected client, remove listeners, remove the namespace, prune the
router stack, then invoke `done` when supplied. The source has no
try/catch, so a throwing step aborts everything after it and the
exception escapes. -/
def processClose (hasDone : Bool) (node : Node) (env : CloseEnv) : CloseResult :=
  let e1 := [CloseEvent.statusSet, CloseEvent.ctrlSend (sendControl shutdownMsg node none)]
  match env.connected with
  | .error _ => ⟨e1, true⟩
  | .ok ids =>
    match disconnectAll env ids with
    | (evs, true) => ⟨e1 ++ evs, true⟩
    | (evs, false) =>
      let e2 := e1 ++ evs
      match env.removeAllListeners with
      | .error _ => ⟨e2, true⟩
      | .ok _ =>
        let e3 := e2 ++ [CloseEvent.listenersRemoved]
        match env.removeNamespace with
        | .error _ => ⟨e3, true⟩
        | .ok _ =>
          let e4 := e3 ++ [CloseEvent.namespaceRemoved]
          match env.routerStack with
          | .error _ => ⟨e4, true⟩
          | .ok stack =>
            let e5 := e4 ++ [CloseEvent.routesPruned (pruneStack stack node.url)]
            if hasDone then ⟨e5 ++ [CloseEvent.doneCalled], false⟩ else ⟨e5, false⟩

/-- Oracles for a teardown in which the single connected client's
`disconnect()` call throws; every other collaborator behaves. -/
def badEnv : CloseEnv :=
  { connected := Except.ok [("s1").toList],
    disconnect := fun _ => Except.error (),
    removeAllListeners := Except.ok (),
    removeNamespace := Except.ok (),
    routerStack := Except.ok [] }

/-- C2 code_bug evidence: `processClose` contains no exception handling,
so when a disconnect throws, the exception escapes to the caller, listener
removal, namespace removal and route pruning are never attempted, and the
completion callback is never invoked — the claim requires the exception to
be caught and the remaining steps and callback to run. -/
theorem close_exception_aborts_teardown :
    (processClose true nodeW badEnv).threw = true ∧
    CloseEvent.doneCalled ∉ (processClose true nodeW badEnv).trace ∧
    CloseEvent.listenersRemoved ∉ (processClose true nodeW badEnv).trace ∧
    CloseEvent.namespaceRemoved ∉ (processClose true nodeW badEnv).trace ∧
    (∀ st, CloseEvent.routesPruned st ∉ (processClose true nodeW badEnv).trace) := by
  refine ⟨by decide, by decide, by decide, by decide, ?_⟩
  intro st hst
  have : (processClose true nodeW badEnv).trace
      = [CloseEvent.statusSet, CloseEvent.ctrlSend (sendControl shutdownMsg nodeW none)] := by
    decide
  rw [this] at hst
  simp at hst

theorem disconnectAll_ok (env : CloseEnv) (ids : List (List Char))
    (h : ∀ i ∈ ids, env.disconnect i = Except.ok ()) :
    disconnectAll env ids = (ids.map CloseEvent.disconnected, false) := by
  induction ids with
  | nil => rfl
  | cons sid rest ih =>
    have hs := h sid (List.mem_cons_self sid rest)
    simp [disconnectAll, hs, ih (fun i hi => h i (List.mem_cons_of_mem sid hi))]

theorem processClose_ok_trace (hasDone : Bool) (node : Node) (env : CloseEnv)
    (ids stack : List (List Char))
    (hc : env.connected = Except.ok ids)
    (hd : ∀ i ∈ ids, env.disconnect i = Except.ok ())
    (hl : env.removeAllListeners = Except.ok ())
    (hn : env.removeNamespace = Except.ok ())
    (hs : env.routerStack = Except.ok stack) :
    processClose hasDone node env =
      ⟨[CloseEvent.statusSet, CloseEvent.ctrlSend (sendControl shutdownMsg node none)]
          ++ ids.map CloseEvent.disconnected
          ++ [CloseEvent.listenersRemoved, CloseEvent.namespaceRemoved,
              CloseEvent.routesPruned (pruneStack stack node.url)]
          ++ (if hasDone then [CloseEvent.doneCalled] else []), false⟩ := by
  simp only [processClose, hc, disconnectAll_ok env ids hd, hl, hn, hs]
  cases hasDone <;> simp

/-- The notify and disconnect events, whose relative order C6 is about. -/
def ctrlOrDisc : CloseEvent → Bool
  | .ctrlSend _ => true
  | .disconnected _ => true
  | _ => false

/-- C6: within a single teardown invocation whose collaborators behave,
the shutdown control notification precedes every forced client disconnect
(restricted to notify/disconnect events, the trace is the one notification
followed by the disconnects), the completion callback when supplied runs
exactly once and as the very last step, and its absence is not an error. -/
theorem processClose_order_and_done (hasDone : Bool) (node : Node) (env : CloseEnv)
    (ids stack : List (List Char))
    (hc : env.connected = Except.ok ids)
    (hd : ∀ i ∈ ids, env.disconnect i = Except.ok ())
    (hl : env.removeAllListeners = Except.ok ())
    (hn : env.removeNamespace = Except.ok ())
    (hs : env.routerStack = Except.ok stack) :
    ((processClose hasDone node env).trace.filter ctrlOrDisc
        = CloseEvent.ctrlSend (sendControl shutdownMsg node none)
            :: ids.map CloseEvent.disconnected) ∧
    (hasDone = true →
      (processClose hasDone node env).trace.count CloseEvent.doneCalled = 1 ∧
      (processClose hasDone node env).trace.getLast? = some CloseEvent.doneCalled) ∧
    (hasDone = false →
      (processClose hasDone node env).trace.count CloseEvent.doneCalled = 0) ∧
    (processClose hasDone node env).threw = false := by
  rw [processClose_ok_trace hasDone node env ids stack hc hd hl hn hs]
  have hz : ∀ l : List (List Char),
      (l.map CloseEvent.disconnected).count CloseEvent.doneCalled = 0 := by
    intro l
    rw [List.count_eq_zero]
    simp
  have hfd : ∀ l : List (List Char),
      (l.map CloseEvent.disconnected).filter ctrlOrDisc = l.map CloseEvent.disconnected := by
    intro l
    rw [List.filter_eq_self]
    intro a ha
    obtain ⟨_, _, rfl⟩ := List.mem_map.mp ha
    rfl
  cases hasDone with
  | false =>
    refine ⟨?_, by simp, ?_, rfl⟩
    · simp [List.filter_append, ctrlOrDisc, hfd]
    · intro
      simp [List.count_append, hz, List.count_cons, List.count_nil]
  | true =>
    refine ⟨?_, ?_, by simp, rfl⟩
    · simp [List.filter_append, ctrlOrDisc, hfd]
    · intro
      constructor
      · simp [List.count_append, hz, List.count_cons, List.count_nil]
      · simp [List.getLast?_cons, List.getLast?_append]

/-- Oracles for a fully successful teardown with two connected clients,
used by the C6 witness. -/
def okEnv : CloseEnv :=
  { connected := Except.ok [("s1").toList, ("s2").toList],
    disconnect := fun _ => Except.ok (),
    removeAllListeners := Except.ok (),
    removeNamespace := Except.ok (),
    routerStack := Except.ok [] }

/-- Witness for C6 at concrete oracles with two clients and a supplied
completion callback. -/
theorem processClose_order_and_done_witness :
    ((processClose true nodeW okEnv).trace.filter ctrlOrDisc
        = CloseEvent.ctrlSend (sendControl shutdownMsg nodeW none)
            :: [("s1").toList, ("s2").toList].map CloseEvent.disconnected) ∧
    (true = true →
      (processClose true nodeW okEnv).trace.count CloseEvent.doneCalled = 1 ∧
      (processClose true nodeW okEnv).trace.getLast? = some CloseEvent.doneCalled) ∧
    (true = false →
      (processClose true nodeW okEnv).trace.count CloseEvent.doneCalled = 0) ∧
    (processClose true nodeW okEnv).threw = false :=
  processClose_order_and_done true nodeW okEnv [("s1").toList, ("s2").toList] []
    rfl (fun _ _ => rfl) rfl rfl rfl

end Uiblib
